import Mathlib

/-!
Shallow embedding of `src/network/src/ckb_service.rs` (`CKBService`):
the Protocol Dispatch Service of the p2p layer.

The Rust function `CKBService::handle_protocol_connection` performs some
synchronous work — the registry checks, the eager `tie_or_stop` call
that builds `protocol_future`, and the connect bookkeeping — and returns
a future; the caller drives that future to completion, which runs the
inbound loop and the teardown continuation.  We embed the *complete*
execution of one session (the synchronous part followed by driving the
returned future) as a pure function from the session's inputs — the
results of the registry calls, the inbound messages with the clock value
observed at each arrival, and the completion value of the tie/termination
signal — to the ordered list of observable actions (Peer Store writes,
handler-callback dispatches, registry removal, the `tie_or_stop` call)
together with the session's final result.
-/

namespace Ckb

/-- Opaque cryptographic peer identity (`PeerId`); the source only clones
and formats it, so a string suffices. -/
abbrev PeerId := String

/-- Opaque message payload bytes (`&[u8]` in the source). -/
abbrev Data := List Nat

/-- `libp2p::core::Endpoint`: direction of connection establishment. -/
inductive Endpoint
  | Dialer
  | Listener
deriving DecidableEq, Repr

/-- `libp2p::core::UniqueConnecState`: state of a protocol-connection
slot.  The source compares the state only against `Full`. -/
inductive UniqueConnecState
  | Empty
  | Pending
  | Full
deriving DecidableEq, Repr

/-- The slice of a `UniqueConnec` protocol-connection slot that
`handle_protocol_connection` observes: its current state. -/
structure ProtocolConnec where
  state : UniqueConnecState
deriving DecidableEq, Repr

/-- `peer_store::Behaviour` variants used by `ckb_service.rs`. -/
inductive Behaviour
  | Connect
  | UnexpectedDisconnect
deriving DecidableEq, Repr

/-- `peer_store::Status` variants used by `ckb_service.rs`. -/
inductive Status
  | Connected
  | Disconnected
deriving DecidableEq, Repr

/-- `std::io::ErrorKind`: the source constructs every error with
`IoErrorKind::Other`. -/
inductive IoErrorKind
  | Other
deriving DecidableEq, Repr

/-- The two formatted messages the source builds with `format!`:
`"handle ckb_protocol connection error: {}"` applied to the registry
error, and the message that it cannot find the peer, applied to the
peer id.  Represented structurally rather than as formatted text. -/
inductive ErrMsg
  | handleCkbProtocolConnectionError (err : String)
  | cantFindPeer (peer_id : PeerId)
deriving DecidableEq, Repr

/-- `std::io::Error` as built by `IoError::new(kind, msg)` in the source. -/
structure IoError where
  kind : IoErrorKind
  msg : ErrMsg
deriving DecidableEq, Repr

/-- The three operations of the `CKBProtocolHandler` callback contract. -/
inductive Callback
  | connected
  | received (data : Data)
  | disconnected
deriving DecidableEq, Repr

/-- How a handler callback is dispatched in the source: `spawned` for a
`tokio::spawn(future::lazy(..))` fire-and-forget task submission,
`inline` for a direct method call on the current task. -/
inductive DispatchMode
  | spawned
  | inline
deriving DecidableEq, Repr

/-- One observable action of `handle_protocol_connection`, in program
order.  `report`/`updateStatus` are the Peer Store writes
(`peer_store.report` / `peer_store.update_status`),
`updateLastMessageTime` is the `network.modify_peer` write of
`peer.last_message_time`, `invoke` is a handler-callback dispatch,
`tie` marks the `protocol_connec.tie_or_stop(..)` call — the
`UniqueConnec` implementation is outside these sources, and per the spec
this call performs the `Empty → Full` attempt that binds the session,
with only the completion signal deferred to polling — and `dropPeer` is
the `network.drop_peer` removal from the Network Registry. -/
inductive Event
  | report (b : Behaviour)
  | updateStatus (s : Status)
  | updateLastMessageTime (t : Nat)
  | invoke (cb : Callback) (mode : DispatchMode)
  | tie
  | dropPeer
deriving DecidableEq, Repr

deriving instance DecidableEq for Except

/-- Inputs of one session, as `handle_protocol_connection` observes them:
the results the Network Registry calls would return, the inbound stream's
items each paired with the `unix_time_as_millis()` reading at its arrival,
and the completion value of the tie/termination signal
(`tie_or_stop(..).then(..)` passes this value through unchanged). -/
structure SessionEnv where
  tryOutbound : Except String ProtocolConnec
  tryInbound : Except String ProtocolConnec
  peerIndex : Option Nat
  arrivals : List (Nat × Data)
  termination : Except IoError Unit
deriving DecidableEq, Repr

/-- The registry call selected by the endpoint:
`network.try_outbound_ckb_protocol_connec` for `Endpoint::Dialer`,
`network.try_inbound_ckb_protocol_connec` for `Endpoint::Listener`. -/
def claimSlot (env : SessionEnv) (endpoint : Endpoint) :
    Except String ProtocolConnec :=
  match endpoint with
  | .Dialer => env.tryOutbound
  | .Listener => env.tryInbound

/-- Body of the `for_each` closure over `incoming_stream`, for one inbound
item: synchronously write `peer.last_message_time` via
`network.modify_peer`, then `tokio::spawn` the `received` callback, and
return `Ok(())` to the stream.  `spawnOutcome` stands for the eventual
completion value of the spawned task; the closure detaches the task and
its own return value does not depend on it. -/
def onInboundMessage (t : Nat) (d : Data)
    (_spawnOutcome : Except IoError Unit) :
    List Event × Except IoError Unit :=
  ([.updateLastMessageTime t, .invoke (.received d) .spawned], .ok ())

/-- Events of the inbound loop: the stream items processed in arrival
order by `onInboundMessage`. -/
def msgEvents (arrivals : List (Nat × Data)) : List Event :=
  arrivals.flatMap (fun a => (onInboundMessage a.1 a.2 (.ok ())).1)

/-- The `.then` continuation run when the tie/termination signal
completes: write `Behaviour::UnexpectedDisconnect` and
`Status::Disconnected` to the Peer Store, call the handler's
`disconnected` directly (no spawn), then `network.drop_peer`. -/
def teardownEvents : List Event :=
  [.report .UnexpectedDisconnect, .updateStatus .Disconnected,
   .invoke .disconnected .inline, .dropPeer]

/-- The synchronous bookkeeping `handle_protocol_connection` performs
after the `tie_or_stop` call and before returning its future: write
`Behaviour::Connect` and `Status::Connected` to the Peer Store, then
`tokio::spawn` the `connected` callback. -/
def connectEvents : List Event :=
  [.report .Connect, .updateStatus .Connected, .invoke .connected .spawned]

/-- `CKBService::handle_protocol_connection`, run to completion: the
synchronous part (slot claim, `Full` check, peer-index lookup, the eager
`tie_or_stop` call made while building `protocol_future`, then the
connect bookkeeping and the `connected` spawn) followed by driving the
returned future (the inbound loop, the `.then` teardown).  Returns the
ordered action trace and the session's final result. -/
def handle_protocol_connection (env : SessionEnv) (peer_id : PeerId)
    (endpoint : Endpoint) : List Event × Except IoError Unit :=
  match claimSlot env endpoint with
  | .error err =>
    ([], .error ⟨.Other, .handleCkbProtocolConnectionError err⟩)
  | .ok protocol_connec =>
    if protocol_connec.state = .Full then
      ([], .ok ())
    else
      match env.peerIndex with
      | none => ([], .error ⟨.Other, .cantFindPeer peer_id⟩)
      | some _peer_index =>
        (.tie ::
          (connectEvents ++ (msgEvents env.arrivals ++ teardownEvents)),
         env.termination)

/-- `protocol::Protocol`: the source matches on the `CKBProtocol` variant
and sends every other variant to a wildcard arm; the non-`CKBProtocol`
variants are represented by an indexed family. -/
inductive Protocol
  | CKBProtocol (env : SessionEnv) (peer_id : PeerId) (endpoint : Endpoint)
  | NonCKBProtocol (tag : Nat)
deriving DecidableEq, Repr

/-- `CKBService::handle`: dispatch `Protocol::CKBProtocol` sessions to
`handle_protocol_connection`; every other variant yields `future::ok(())`
with no action. -/
def handle (protocol : Protocol) : List Event × Except IoError Unit :=
  match protocol with
  | .CKBProtocol env peer_id endpoint =>
    handle_protocol_connection env peer_id endpoint
  | .NonCKBProtocol _ => ([], .ok ())

/-- The guard under which a session passes all three checks and reaches
the tie: the endpoint's registry call succeeds, the slot is not `Full`,
and the peer index resolves. -/
def tiesOk (env : SessionEnv) (endpoint : Endpoint) : Bool :=
  match claimSlot env endpoint with
  | .error _ => false
  | .ok c => c.state ≠ .Full && env.peerIndex.isSome

/-- An event is one of the teardown actions of the claimed
disconnect sequence. -/
def isTeardownAction (e : Event) : Bool :=
  match e with
  | .report .UnexpectedDisconnect => true
  | .updateStatus .Disconnected => true
  | .invoke .disconnected _ => true
  | .dropPeer => true
  | _ => false

/-- An event is an invocation of the handler's `disconnected`. -/
def isDisconnectedInvoke (e : Event) : Bool :=
  match e with
  | .invoke .disconnected _ => true
  | _ => false

/-- An event schedules a `connected` or `received` handler callback. -/
def isConnectedOrReceived (e : Event) : Bool :=
  match e with
  | .invoke .connected _ => true
  | .invoke (.received _) _ => true
  | _ => false

/-- An event is a Peer Store write (`report` or `update_status`). -/
def isPeerStoreWrite (e : Event) : Bool :=
  match e with
  | .report _ => true
  | .updateStatus _ => true
  | _ => false

/-- `Peer` registry entry: the field `handle_protocol_connection`
mutates per inbound message. -/
structure Peer where
  last_message_time : Option Nat
deriving DecidableEq, Repr

/-- The `modify_peer` closure for one inbound message:
`peer.last_message_time = Some(unix_time_as_millis())`. -/
def recordActivity (t : Nat) (p : Peer) : Peer :=
  { p with last_message_time := some t }

/-- Successive peer states under in-order delivery of a session's inbound
messages, `ts` being the clock readings at the arrivals. -/
def peerStates (p : Peer) (ts : List Nat) : List Peer :=
  List.scanl (fun q t => recordActivity t q) p ts

/-- Order on `last_message_time` values: an unset time precedes
everything, set times compare by the clock. -/
def timeLE (a b : Option Nat) : Prop :=
  match a, b with
  | none, _ => True
  | some x, some y => x ≤ y
  | some _, none => False

/-- A session that passes all checks: both registry calls would succeed
with an `Empty` slot, the peer index resolves, no inbound messages. -/
def env0 : SessionEnv :=
  { tryOutbound := .ok ⟨.Empty⟩, tryInbound := .ok ⟨.Empty⟩,
    peerIndex := some 0, arrivals := [], termination := .ok () }

/-- A session whose slot is already `Full` on both endpoints. -/
def envFull : SessionEnv :=
  { tryOutbound := .ok ⟨.Full⟩, tryInbound := .ok ⟨.Full⟩,
    peerIndex := some 0, arrivals := [(5, [1])], termination := .ok () }

/-- A session whose peer was concurrently evicted: the registry calls
succeed but the peer index does not resolve. -/
def envNoIndex : SessionEnv :=
  { tryOutbound := .ok ⟨.Empty⟩, tryInbound := .ok ⟨.Empty⟩,
    peerIndex := none, arrivals := [], termination := .ok () }

/-- A session whose slot claim fails on both endpoints. -/
def envClaimErr : SessionEnv :=
  { tryOutbound := .error "slot", tryInbound := .error "slot",
    peerIndex := some 0, arrivals := [], termination := .ok () }

/-- An event is a handler-callback invocation (of any of the three
operations, in any dispatch mode). -/
def isHandlerInvoke (e : Event) : Bool :=
  match e with
  | .invoke _ _ => true
  | _ => false

/-- An event is a handler-callback invocation dispatched as a spawned
task. -/
def isSpawnedInvoke (e : Event) : Bool :=
  match e with
  | .invoke _ .spawned => true
  | _ => false

/-- Every recording of `Behaviour::Connect` is preceded in the trace by
the `tie_or_stop` call. -/
def connectRecordedAfterTie (tr : List Event) : Prop :=
  ∀ pre post, tr = pre ++ Event.report .Connect :: post → Event.tie ∈ pre

theorem msgEvents_cons (a : Nat × Data) (rest : List (Nat × Data)) :
    msgEvents (a :: rest) =
      .updateLastMessageTime a.1 ::
        .invoke (.received a.2) .spawned :: msgEvents rest := by
  simp [msgEvents, onInboundMessage]

theorem msgEvents_forall {P : Event → Prop}
    (h1 : ∀ t, P (.updateLastMessageTime t))
    (h2 : ∀ d, P (.invoke (.received d) .spawned)) :
    ∀ ar, ∀ e ∈ msgEvents ar, P e := by
  intro ar
  induction ar with
  | nil => intro e he; simp [msgEvents] at he
  | cons a rest ih =>
    intro e he
    rw [msgEvents_cons] at he
    simp only [List.mem_cons] at he
    rcases he with he | he | he
    · exact he ▸ h1 a.1
    · exact he ▸ h2 a.2
    · exact ih e he

theorem dropWhile_append_all {α : Type} {p : α → Bool} :
    ∀ {xs : List α} (ys : List α), (∀ e ∈ xs, p e = true) →
      List.dropWhile p (xs ++ ys) = List.dropWhile p ys := by
  intro xs
  induction xs with
  | nil => intro ys _; rfl
  | cons x xt ih =>
    intro ys h
    rw [List.cons_append, List.dropWhile_cons, h x (by simp)]
    exact ih ys (fun e he => h e (by simp [he]))

theorem append_cons_unique {α : Type} {a : α} :
    ∀ (xs : List α) {ys pre post : List α},
      xs ++ a :: ys = pre ++ a :: post → a ∉ xs → a ∉ ys →
      pre = xs ∧ post = ys := by
  intro xs
  induction xs with
  | nil =>
    intro ys pre post heq _ hys
    cases pre with
    | nil => exact ⟨rfl, (show ys = post by simpa using heq).symm⟩
    | cons p ps =>
      rw [List.nil_append, List.cons_append] at heq
      obtain ⟨hpa, htail⟩ := List.cons.inj heq
      exact absurd (htail ▸ List.mem_append_right ps (List.mem_cons_self a post))
        hys
  | cons x xt ih =>
    intro ys pre post heq hxs hys
    cases pre with
    | nil =>
      rw [List.cons_append, List.nil_append] at heq
      obtain ⟨hxa, _⟩ := List.cons.inj heq
      exact absurd (hxa ▸ List.mem_cons_self x xt) hxs
    | cons p ps =>
      rw [List.cons_append, List.cons_append] at heq
      obtain ⟨hxp, htail⟩ := List.cons.inj heq
      obtain ⟨h1, h2⟩ := ih htail (fun hm => hxs (List.mem_cons_of_mem x hm)) hys
      exact ⟨by rw [hxp, h1], h2⟩

theorem tie_not_mem_msgEvents (ar : List (Nat × Data)) :
    Event.tie ∉ msgEvents ar := by
  intro hm
  have := msgEvents_forall (P := fun e => e ≠ Event.tie)
    (fun t => by simp) (fun d => by simp) ar Event.tie hm
  exact this rfl

/-- In the branch where all checks pass, the trace of
`handle_protocol_connection` is the `tie_or_stop` call, the connect
bookkeeping, the inbound loop, and the teardown, in that order. -/
theorem trace_of_tiesOk (env : SessionEnv) (peer_id : PeerId)
    (endpoint : Endpoint) (h : tiesOk env endpoint = true) :
    (handle_protocol_connection env peer_id endpoint).1 =
      .tie :: (connectEvents ++ (msgEvents env.arrivals ++ teardownEvents)) := by
  unfold tiesOk at h
  unfold handle_protocol_connection
  cases hc : claimSlot env endpoint with
  | error err => rw [hc] at h; simp at h
  | ok c =>
    rw [hc] at h
    simp only [Bool.and_eq_true, decide_eq_true_eq] at h
    obtain ⟨hstate, hidx⟩ := h
    cases hpi : env.peerIndex with
    | none => rw [hpi] at hidx; simp at hidx
    | some i => simp [hstate, hpi]

/-- In every branch where one of the three checks fails, the trace is
empty: no Peer Store write, no registry change, no callback. -/
theorem trace_of_not_tiesOk (env : SessionEnv) (peer_id : PeerId)
    (endpoint : Endpoint) (h : tiesOk env endpoint = false) :
    (handle_protocol_connection env peer_id endpoint).1 = [] := by
  unfold tiesOk at h
  unfold handle_protocol_connection
  cases hc : claimSlot env endpoint with
  | error err => rfl
  | ok c =>
    rw [hc] at h
    by_cases hs : c.state = UniqueConnecState.Full
    · simp [hs]
    · cases hpi : env.peerIndex with
      | none => simp [hs, hpi]
      | some i => rw [hpi] at h; simp [hs] at h

/-- C1: for every session whose tie/termination signal completes (any
termination value), the trace ends with exactly, in this order: the Peer
Store writes of `Behaviour::UnexpectedDisconnect` and
`Status::Disconnected`, the handler's `disconnected` invocation, and the
registry removal `drop_peer`; no teardown action occurs earlier, so the
Peer Store already reflects the disconnect when `disconnected` runs. -/
theorem teardown_order (env : SessionEnv) (peer_id : PeerId)
    (endpoint : Endpoint) (h : tiesOk env endpoint = true) :
    (handle_protocol_connection env peer_id endpoint).1 =
      (Event.tie :: (connectEvents ++ msgEvents env.arrivals)) ++
        teardownEvents
    ∧ ∀ e ∈ Event.tie :: (connectEvents ++ msgEvents env.arrivals),
        isTeardownAction e = false := by
  rw [trace_of_tiesOk env peer_id endpoint h]
  constructor
  · simp
  · intro e he
    simp only [List.mem_cons, List.mem_append] at he
    rcases he with rfl | he | he
    · rfl
    · simp only [connectEvents, List.mem_cons, List.not_mem_nil, or_false]
        at he
      rcases he with rfl | rfl | rfl <;> rfl
    · exact msgEvents_forall (P := fun e => isTeardownAction e = false)
        (fun t => rfl) (fun d => rfl) env.arrivals e he

theorem teardown_order_witness :
    (handle_protocol_connection env0 "peer" .Dialer).1 =
      (Event.tie :: (connectEvents ++ msgEvents env0.arrivals)) ++
        teardownEvents
    ∧ ∀ e ∈ Event.tie :: (connectEvents ++ msgEvents env0.arrivals),
        isTeardownAction e = false :=
  teardown_order env0 "peer" .Dialer (by decide)

/-- C2: when the endpoint's registry call returns a slot already in state
`Full`, the session completes as a no-op success: empty trace (no handler
callback, no Peer Store write, no registry change) and result `Ok(())`. -/
theorem full_slot_noop (env : SessionEnv) (peer_id : PeerId)
    (endpoint : Endpoint) (connec : ProtocolConnec)
    (h1 : claimSlot env endpoint = .ok connec)
    (h2 : connec.state = .Full) :
    handle_protocol_connection env peer_id endpoint = ([], .ok ()) := by
  unfold handle_protocol_connection
  rw [h1]
  simp [h2]

theorem full_slot_noop_witness :
    handle_protocol_connection envFull "peer" .Listener = ([], .ok ()) :=
  full_slot_noop envFull "peer" .Listener ⟨.Full⟩ rfl rfl

/-- C3: the recording of `Behaviour::Connect` and `Status::Connected`
in the Peer Store and the scheduling of the `connected` callback happen
exactly on a successful initial tie — the trace contains them iff the
slot claim succeeds with a non-`Full` slot and the peer index resolves —
every `Connect` record comes after the `tie_or_stop` call, and after the
tie the trace is the connect bookkeeping followed by the inbound loop
and the teardown, so the recording and the `connected` spawn precede the
per-message loop. -/
theorem connect_bookkeeping_after_tie (env : SessionEnv)
    (peer_id : PeerId) (endpoint : Endpoint) :
    ((Event.report .Connect ∈
          (handle_protocol_connection env peer_id endpoint).1
        ∧ Event.updateStatus .Connected ∈
            (handle_protocol_connection env peer_id endpoint).1
        ∧ Event.invoke .connected .spawned ∈
            (handle_protocol_connection env peer_id endpoint).1)
      ↔ tiesOk env endpoint = true)
    ∧ connectRecordedAfterTie
        (handle_protocol_connection env peer_id endpoint).1
    ∧ ∀ pre post,
        (handle_protocol_connection env peer_id endpoint).1 =
          pre ++ Event.tie :: post →
        post = connectEvents ++ (msgEvents env.arrivals ++ teardownEvents) := by
  cases htk : tiesOk env endpoint with
  | false =>
    rw [trace_of_not_tiesOk env peer_id endpoint htk]
    refine ⟨by simp, ?_, ?_⟩
    · intro pre post heq
      cases pre <;> simp at heq
    · intro pre post heq
      cases pre <;> simp at heq
  | true =>
    rw [trace_of_tiesOk env peer_id endpoint htk]
    refine ⟨by simp [connectEvents], ?_, ?_⟩
    · intro pre post heq
      cases pre with
      | nil => simp at heq
      | cons p ps =>
        obtain ⟨hp, _⟩ := List.cons.inj heq
        rw [← hp]
        exact List.mem_cons_self _ _
    · intro pre post heq
      have hys : Event.tie ∉
          connectEvents ++ (msgEvents env.arrivals ++ teardownEvents) := by
        intro hm
        rcases List.mem_append.mp hm with hm | hm
        · simp [connectEvents] at hm
        · rcases List.mem_append.mp hm with hm | hm
          · exact tie_not_mem_msgEvents env.arrivals hm
          · simp [teardownEvents] at hm
      exact (append_cons_unique ([] : List Event) heq (by simp) hys).2

theorem connect_bookkeeping_after_tie_witness :
    Event.report .Connect ∈
        (handle_protocol_connection env0 "peer2" .Dialer).1
    ∧ Event.updateStatus .Connected ∈
        (handle_protocol_connection env0 "peer2" .Dialer).1
    ∧ Event.invoke .connected .spawned ∈
        (handle_protocol_connection env0 "peer2" .Dialer).1 :=
  (connect_bookkeeping_after_tie env0 "peer2" .Dialer).1.mpr (by decide)

/-- C4 (counterexample): in the session `env0` the trace contains a
handler-callback invocation that is not a spawned task — the
`disconnected` call is made directly inside the teardown continuation —
refuting that every callback is dispatched as its own scheduled task. -/
theorem every_callback_spawned_cex :
    ¬ (∀ e ∈ (handle_protocol_connection env0 "peer" .Dialer).1,
        isHandlerInvoke e = true → isSpawnedInvoke e = true) := by
  decide

/-- C4 (amended): `connected` and `received` invocations are dispatched
as independently spawned tasks; the `disconnected` invocation alone is
made inline within the session's teardown path. -/
theorem callback_dispatch_modes (env : SessionEnv) (peer_id : PeerId)
    (endpoint : Endpoint) :
    ∀ e ∈ (handle_protocol_connection env peer_id endpoint).1,
      isHandlerInvoke e = true →
      (isSpawnedInvoke e = true ↔ isDisconnectedInvoke e = false) := by
  cases htk : tiesOk env endpoint with
  | false =>
    rw [trace_of_not_tiesOk env peer_id endpoint htk]
    intro e he
    simp at he
  | true =>
    rw [trace_of_tiesOk env peer_id endpoint htk]
    intro e he
    simp only [List.mem_cons, List.mem_append] at he
    rcases he with rfl | he | hm | hm
    · decide
    · simp only [connectEvents, List.mem_cons, List.not_mem_nil, or_false]
        at he
      rcases he with rfl | rfl | rfl <;> decide
    · have hmsgP : ∀ e ∈ msgEvents env.arrivals,
          isHandlerInvoke e = true →
          (isSpawnedInvoke e = true ↔ isDisconnectedInvoke e = false) :=
        msgEvents_forall (P := fun e => isHandlerInvoke e = true →
            (isSpawnedInvoke e = true ↔ isDisconnectedInvoke e = false))
          (fun t h => Bool.noConfusion h)
          (fun d _ => ⟨fun _ => rfl, fun _ => rfl⟩) env.arrivals
      exact hmsgP e hm
    · simp only [teardownEvents, List.mem_cons, List.not_mem_nil, or_false]
        at hm
      rcases hm with rfl | rfl | rfl | rfl <;> decide

theorem callback_dispatch_modes_witness :
    isSpawnedInvoke (Event.invoke .connected .spawned) = true :=
  ((callback_dispatch_modes env0 "peer" .Dialer
      (Event.invoke .connected .spawned) (by decide)) (by decide)).mpr
    (by decide)

/-- C5: for every inbound stream item, the loop body writes the
synchronous `last_message_time` update first, then dispatches the
spawned `received` callback, and acknowledges the item with `Ok(())`
whatever the spawned task's eventual outcome; the loop processes items
in arrival order. -/
theorem inbound_message_dispatch (t : Nat) (d : Data)
    (spawnOutcome : Except IoError Unit) (a : Nat × Data)
    (rest : List (Nat × Data)) :
    onInboundMessage t d spawnOutcome =
      ([.updateLastMessageTime t, .invoke (.received d) .spawned], .ok ())
    ∧ msgEvents (a :: rest) =
        .updateLastMessageTime a.1 ::
          .invoke (.received a.2) .spawned :: msgEvents rest :=
  ⟨rfl, msgEvents_cons a rest⟩

/-- C6: in every session trace the `disconnected` invocation occurs at
most once, and from the first `disconnected` invocation onward no
`connected` or `received` callback is scheduled. -/
theorem disconnected_once_and_final (env : SessionEnv) (peer_id : PeerId)
    (endpoint : Endpoint) :
    (handle_protocol_connection env peer_id endpoint).1.countP
        isDisconnectedInvoke ≤ 1
    ∧ ∀ e ∈ (handle_protocol_connection env peer_id endpoint).1.dropWhile
          (fun x => ! isDisconnectedInvoke x),
        isConnectedOrReceived e = false := by
  cases htk : tiesOk env endpoint with
  | false =>
    rw [trace_of_not_tiesOk env peer_id endpoint htk]
    exact ⟨by simp, by intro e he; simp at he⟩
  | true =>
    rw [trace_of_tiesOk env peer_id endpoint htk]
    have hmsg0 : ∀ e ∈ msgEvents env.arrivals,
        isDisconnectedInvoke e = false :=
      msgEvents_forall (P := fun e => isDisconnectedInvoke e = false)
        (fun t => rfl) (fun d => rfl) env.arrivals
    constructor
    · have hmsg : (msgEvents env.arrivals).countP isDisconnectedInvoke = 0 :=
        List.countP_eq_zero.mpr (fun e he => by simp [hmsg0 e he])
      simp [connectEvents, teardownEvents, List.countP_append,
        List.countP_cons, hmsg, isDisconnectedInvoke]
    · have hshape : Event.tie ::
          (connectEvents ++ (msgEvents env.arrivals ++ teardownEvents)) =
          (Event.tie :: connectEvents) ++
            (msgEvents env.arrivals ++ teardownEvents) := by
        simp
      rw [hshape,
        dropWhile_append_all (msgEvents env.arrivals ++ teardownEvents)
          (by decide),
        dropWhile_append_all teardownEvents
          (fun e he => by simp [hmsg0 e he])]
      decide

theorem disconnected_once_and_final_witness :
    isConnectedOrReceived Event.dropPeer = false :=
  (disconnected_once_and_final env0 "peer" .Dialer).2 Event.dropPeer
    (by decide)

/-- C7: when the peer index does not resolve (peer concurrently evicted),
the session fails with an `IoErrorKind::Other` error naming the peer and
an empty trace: no `connected` or `disconnected` callback and no Peer
Store or registry write. -/
theorem peer_index_missing_fails (env : SessionEnv) (peer_id : PeerId)
    (endpoint : Endpoint) (connec : ProtocolConnec)
    (h1 : claimSlot env endpoint = .ok connec)
    (h2 : connec.state ≠ .Full) (h3 : env.peerIndex = none) :
    handle_protocol_connection env peer_id endpoint =
      ([], .error ⟨.Other, .cantFindPeer peer_id⟩) := by
  unfold handle_protocol_connection
  rw [h1]
  simp [h2, h3]

theorem peer_index_missing_fails_witness :
    handle_protocol_connection envNoIndex "peer7" .Dialer =
      ([], .error ⟨.Other, .cantFindPeer "peer7"⟩) :=
  peer_index_missing_fails envNoIndex "peer7" .Dialer ⟨.Empty⟩ rfl
    (by decide) rfl

/-- C8: when the endpoint's registry call fails — the outbound call for
`Endpoint::Dialer`, the inbound call for `Endpoint::Listener` — the
session returns an error wrapping the registry error and performs no
further action: empty trace, so no Peer Store write, no callback, no
registration. -/
theorem slot_claim_failure_no_action (env : SessionEnv) (peer_id : PeerId)
    (endpoint : Endpoint) (err : String)
    (h : claimSlot env endpoint = .error err) :
    handle_protocol_connection env peer_id endpoint =
      ([], .error ⟨.Other, .handleCkbProtocolConnectionError err⟩) := by
  unfold handle_protocol_connection
  rw [h]

theorem slot_claim_failure_no_action_witness :
    handle_protocol_connection envClaimErr "peer8" .Dialer =
      ([], .error ⟨.Other, .handleCkbProtocolConnectionError "slot"⟩)
    ∧ handle_protocol_connection envClaimErr "peer8" .Listener =
      ([], .error ⟨.Other, .handleCkbProtocolConnectionError "slot"⟩) :=
  ⟨slot_claim_failure_no_action envClaimErr "peer8" .Dialer "slot" rfl,
   slot_claim_failure_no_action envClaimErr "peer8" .Listener "slot" rfl⟩

theorem map_lmt_peerStates (ts : List Nat) :
    ∀ p : Peer, (peerStates p ts).map Peer.last_message_time =
      p.last_message_time :: ts.map some := by
  induction ts with
  | nil => intro p; rfl
  | cons t rest ih =>
    intro p
    have h := ih (recordActivity t p)
    simp only [peerStates, List.scanl, List.map_cons] at h ⊢
    rw [h]
    rfl

/-- C9: under in-order delivery of one peer's inbound messages with a
monotone clock, the successive values of `Peer.last_message_time`
starting from a fresh peer form a non-decreasing sequence: each write of
`recordActivity` never stores a value smaller than the previous one. -/
theorem last_message_time_monotone (p : Peer) (ts : List Nat)
    (hp : p.last_message_time = none)
    (hts : List.Chain' (· ≤ ·) ts) :
    List.Chain' timeLE ((peerStates p ts).map Peer.last_message_time) := by
  rw [map_lmt_peerStates ts p, hp, List.chain'_cons']
  constructor
  · intro b _
    trivial
  · rw [List.chain'_map]
    exact List.Chain'.imp (fun a b hab => hab) hts

theorem last_message_time_monotone_witness :
    List.Chain' (· ≤ ·) [3, 5, 5, 9]
    ∧ List.Chain' timeLE
        ((peerStates ⟨none⟩ [3, 5, 5, 9]).map Peer.last_message_time) :=
  ⟨by simp [List.chain'_cons],
   last_message_time_monotone ⟨none⟩ [3, 5, 5, 9] rfl
     (by simp [List.chain'_cons])⟩

/-- C10: `CKBService::handle` sends every value that is not the
`CKBProtocol` variant to an immediately successful result with an empty
trace: no registry access, no Peer Store write, no callback. -/
theorem handle_non_ckb_noop (protocol : Protocol)
    (h : ∀ env peer_id endpoint,
      protocol ≠ .CKBProtocol env peer_id endpoint) :
    handle protocol = ([], .ok ()) := by
  cases protocol with
  | CKBProtocol env peer_id endpoint =>
    exact absurd rfl (h env peer_id endpoint)
  | NonCKBProtocol tag => rfl

theorem handle_non_ckb_noop_witness :
    handle (.NonCKBProtocol 0) = ([], .ok ()) :=
  handle_non_ckb_noop (.NonCKBProtocol 0)
    (fun _env _peer_id _endpoint h => Protocol.noConfusion h)

end Ckb
